import Mathlib

/-!
Verification of the srvr static file server.

This file gives a shallow embedding, translated from the Rust sources, of the
request-resolution core of srvr: URL-path decoding and validation (src/app.rs,
function root), encoding negotiation (src/encoding.rs), candidate-path
generation (src/paths.rs), the file cache with staleness revalidation
(src/file_cache.rs and src/app.rs, function serve_file), conditional-GET
handling, and byte-range processing (src/partial.rs).

Modelling conventions:
- Machine integers (u64, usize, byte values) are modelled as Nat; none of the
  modelled arithmetic can overflow at the sizes involved.
- Filesystem paths are byte strings (PathBuf/OsStr on Unix is a byte string),
  modelled as List Nat.
- The filesystem is a finite map from path to a FileInfo record carrying the
  metadata (length, modification time) together with two fault switches,
  openOk and readOk, that model whether File::open and read_to_end succeed.
- Modification times (HttpDate values in the code) are seconds as Nat; the
  HTTP date formatting of header values is not modelled, only the compared
  instant.  The code's fallback of SystemTime::now when metadata carries no
  modification time is not modelled: FileInfo always carries one.
- Header maps are modelled as a record with one optional field per header the
  core ever sets; HeaderMap::insert and append both become a field update
  (each header is set at most once per response).
- Asynchronous I/O and locking are flattened into explicit state passing: the
  cache is an association list threaded through the handler, and every
  filesystem or cache touch is recorded in an access trace so that theorems
  can state that a code path performs no I/O.
-/

namespace Srvr

/-- Bytes of a filesystem path or of a request path, as Nat values 0..255. -/
abbrev Path := List Nat

/-- ASCII bytes of a string literal (every literal used here is ASCII). -/
def strB (s : String) : List Nat := s.toList.map Char.toNat

/-- First-match lookup in an association list, the map discipline used for
both the modelled filesystem and the modelled cache. -/
def assoc {β : Type} : List (Path × β) → Path → Option β
  | [], _ => none
  | (k, v) :: rest, key => if key = k then some v else assoc rest key

/-! ## Percent decoding and path validation (src/app.rs, root, lines 193-209) -/

/-- Value of an ASCII hex digit, as used by the percent_encoding crate. -/
def hexVal (b : Nat) : Option Nat :=
  if 48 ≤ b ∧ b ≤ 57 then some (b - 48)
  else if 97 ≤ b ∧ b ≤ 102 then some (b - 87)
  else if 65 ≤ b ∧ b ≤ 70 then some (b - 55)
  else none

/-- Model of percent_encoding::percent_decode_str on the path's bytes: a
percent sign followed by two hex digits decodes to one byte, anything else
passes through unchanged (the crate never fails). -/
def percent_decode : List Nat → List Nat
  | [] => []
  | 37 :: h1 :: h2 :: rest =>
    match hexVal h1, hexVal h2 with
    | some a, some b => (16 * a + b) :: percent_decode rest
    | _, _ => 37 :: percent_decode (h1 :: h2 :: rest)
  | b :: rest => b :: percent_decode rest

/-- Whether a byte is a UTF-8 continuation byte (10xxxxxx). -/
def isCont (b : Nat) : Bool := 128 ≤ b && b ≤ 191

/-- Model of str::from_utf8 validity (the decode_utf8 step of root): the
standard UTF-8 well-formedness check, rejecting overlong forms, surrogates
and values above U+10FFFF. -/
def utf8Valid : List Nat → Bool
  | [] => true
  | b :: rest =>
    if b ≤ 127 then utf8Valid rest
    else if 194 ≤ b && b ≤ 223 then
      match rest with
      | c :: r2 => isCont c && utf8Valid r2
      | [] => false
    else if b == 224 then
      match rest with
      | c :: d :: r2 => (160 ≤ c && c ≤ 191) && isCont d && utf8Valid r2
      | _ => false
    else if 225 ≤ b && b ≤ 236 then
      match rest with
      | c :: d :: r2 => isCont c && isCont d && utf8Valid r2
      | _ => false
    else if b == 237 then
      match rest with
      | c :: d :: r2 => (128 ≤ c && c ≤ 159) && isCont d && utf8Valid r2
      | _ => false
    else if 238 ≤ b && b ≤ 239 then
      match rest with
      | c :: d :: r2 => isCont c && isCont d && utf8Valid r2
      | _ => false
    else if b == 240 then
      match rest with
      | c :: d :: e :: r2 => (144 ≤ c && c ≤ 191) && isCont d && isCont e && utf8Valid r2
      | _ => false
    else if 241 ≤ b && b ≤ 243 then
      match rest with
      | c :: d :: e :: r2 => isCont c && isCont d && isCont e && utf8Valid r2
      | _ => false
    else if b == 244 then
      match rest with
      | c :: d :: e :: r2 => (128 ≤ c && c ≤ 143) && isCont d && isCont e && utf8Valid r2
      | _ => false
    else false

/-- Generic splitting of a list on a separator element, mirroring str::split:
an empty input yields one empty piece, n separators yield n+1 pieces. -/
def splitOnElem {α : Type} [DecidableEq α] (sep : α) : List α → List (List α)
  | [] => [[]]
  | a :: rest =>
    match splitOnElem sep rest with
    | cur :: others => if a = sep then [] :: cur :: others else (a :: cur) :: others
    | [] => [[a]]

/-- Nonempty slash-separated segments of a (relative) path's bytes; Rust's
Path::components ignores repeated and trailing separators. -/
def pathSegments (l : List Nat) : List (List Nat) :=
  (splitOnElem 47 l).filter (fun s => !(s == []))

/-- Model of the traversal check in root: every component of the decoded path
must be Component::Normal.  On a byte path this fails exactly when the path is
absolute (leading slash gives Component::RootDir), when its first nonempty
segment is "." (a leading CurDir survives normalisation), or when any segment
is ".." (ParentDir); interior "." segments are normalised away by Rust. -/
def is_valid_path (l : List Nat) : Bool :=
  match l with
  | 47 :: _ => false
  | _ =>
    let segs := pathSegments l
    (match segs with
      | [] => true
      | s :: _ => !(s == [46])) && segs.all (fun s => !(s == [46, 46]))

/-! ## Encoding negotiation (src/encoding.rs) -/

/-- Supported encodings (src/encoding.rs, enum Encoding). -/
inductive Encoding
  | Brotli
  | Gzip
  | Zstandard
deriving DecidableEq

/-- Wire token for the Content-Encoding header (Encoding::to_header_value). -/
def Encoding.to_header_value : Encoding → String
  | .Brotli => "br"
  | .Gzip => "gzip"
  | .Zstandard => "zstd"

/-- Filename suffix of the pre-compressed sibling (Encoding::get_extension). -/
def Encoding.get_extension : Encoding → String
  | .Brotli => ".br"
  | .Gzip => ".gz"
  | .Zstandard => ".zst"

/-- ASCII whitespace recognised by the trimming model of str::trim (header
values are ASCII, so the unicode cases of char::is_whitespace never arise). -/
def isWsChar (c : Char) : Bool := c == ' ' || c == '\t' || c == '\n' || c == '\r'

/-- Remove trailing whitespace characters. -/
def trimTrailing : List Char → List Char
  | [] => []
  | c :: rest =>
    match trimTrailing rest with
    | [] => if isWsChar c then [] else [c]
    | r => c :: r

/-- Model of str::trim: drop leading and trailing whitespace. -/
def trimSpaces (l : List Char) : List Char := trimTrailing (l.dropWhile isWsChar)

/-- ASCII lowercasing of one character. -/
def toLowerAscii (c : Char) : Char :=
  if 'A' ≤ c ∧ c ≤ 'Z' then Char.ofNat (c.toNat + 32) else c

/-- Model of str::eq_ignore_ascii_case. -/
def eqIgnoreAsciiCase (a b : List Char) : Bool :=
  a.map toLowerAscii == b.map toLowerAscii

/-- Whether a semicolon occurs in the entry. -/
def hasSemi (l : List Char) : Bool := l.any (fun c => c == ';')

/-- Characters before the first semicolon. -/
def notSemi (c : Char) : Bool := !(c == ';')

/-- Model of str::split_once at the first semicolon. -/
def splitOnceSemi (l : List Char) : Option (List Char × List Char) :=
  if hasSemi l then some (l.takeWhile notSemi, (l.dropWhile notSemi).tail) else none

/-- ClientEncodingSupport::check_support: an entry declares the encoding when
the part before any semicolon, trimmed, equals the token ignoring ASCII case. -/
def check_support (encodings : List (List Char)) (encoding_name : List Char) : Bool :=
  encodings.any fun encoding =>
    eqIgnoreAsciiCase
      (match splitOnceSemi encoding with
        | some pr => trimSpaces pr.1
        | none => encoding)
      encoding_name

/-- Client encoding support flags (src/encoding.rs, struct ClientEncodingSupport). -/
structure ClientEncodingSupport where
  has_brotli : Bool
  has_gzip : Bool
  has_zstandard : Bool
deriving DecidableEq

/-- ClientEncodingSupport::from_header_map.  The argument is the
Accept-Encoding header value as characters, or none when the header is absent
(a header value that is not visible ASCII fails to_str in the code and is
likewise treated as absent). -/
def from_header_map (accept_encoding : Option (List Char)) : ClientEncodingSupport :=
  match accept_encoding with
  | none => ⟨false, false, false⟩
  | some s =>
    let encodings := (splitOnElem ',' s).map trimSpaces
    { has_brotli := check_support encodings "br".toList
      has_gzip := check_support encodings "gzip".toList
      has_zstandard := check_support encodings "zstd".toList }

/-- ClientEncodingSupport::supported_encodings: the fixed-priority list, one
match arm per combination of flags, exactly as in the source. -/
def supported_encodings (s : ClientEncodingSupport) : List Encoding :=
  match s.has_brotli, s.has_gzip, s.has_zstandard with
  | true, true, true => [Encoding.Brotli, Encoding.Zstandard, Encoding.Gzip]
  | true, true, false => [Encoding.Brotli, Encoding.Gzip]
  | true, false, true => [Encoding.Brotli, Encoding.Zstandard]
  | false, true, true => [Encoding.Zstandard, Encoding.Gzip]
  | true, false, false => [Encoding.Brotli]
  | false, false, true => [Encoding.Zstandard]
  | false, true, false => [Encoding.Gzip]
  | false, false, false => []

/-- Token of an entry following the specification's words: the entry's token
is what stands before any semicolon-suffixed quality parameter, whitespace
trimmed; written independently of check_support for the refinement proof of
the negotiation claim. -/
def spec_accepts (accept_encoding : Option (List Char)) (token : List Char) : Bool :=
  match accept_encoding with
  | none => false
  | some s =>
    (splitOnElem ',' s).any fun entry =>
      eqIgnoreAsciiCase (trimSpaces (entry.takeWhile notSemi)) token

/-! ## Candidate paths (src/paths.rs) -/

/-- One candidate (src/paths.rs, struct PathToTry). -/
structure PathToTry where
  path : Path
  encoding : Option Encoding
  cache_control : Option String
deriving DecidableEq

/-- append_to_path: push a suffix onto the path's bytes. -/
def append_to_path (p : Path) (suffix : String) : Path := p ++ strB suffix

/-- PathToTry::content_path: the physical path, with the encoding suffix. -/
def PathToTry.content_path (ptt : PathToTry) : Path :=
  match ptt.encoding with
  | some e => append_to_path ptt.path e.get_extension
  | none => ptt.path

/-- Path::join for a relative right operand: base, separator, path. -/
def pathJoin (base p : Path) : Path := base ++ [47] ++ p

/-- collect_paths_to_try (src/paths.rs, lines 49-92), with the push loops of
the source rendered as left folds.  uriPath is the raw request path's bytes
(uri.path()), initial_path the decoded, validated logical path. -/
def collect_paths_to_try (client_encoding_support : ClientEncodingSupport)
    (base_dir : Path) (fallback_path : Path) (uriPath : List Nat)
    (initial_path : Path) : List PathToTry :=
  let paths_to_try : List PathToTry := []
  let paths_to_try :=
    if uriPath ≠ [47] then
      let path := pathJoin base_dir initial_path
      let withEncoded := (supported_encodings client_encoding_support).foldl
        (fun acc e => acc ++ [⟨path, some e, none⟩]) paths_to_try
      withEncoded ++ [⟨path, none, none⟩]
    else paths_to_try
  let paths_to_try := (supported_encodings client_encoding_support).foldl
    (fun acc e => acc ++ [⟨fallback_path, some e, some "no-cache"⟩]) paths_to_try
  paths_to_try ++ [⟨fallback_path, none, none⟩]

/-! ## File cache (src/file_cache.rs) -/

/-- Size threshold above which files are served from disk (FILE_SYSTEM_THRESHOLD). -/
def FILE_SYSTEM_THRESHOLD : Nat := 65536

/-- FileCacheEntryContent: in-memory bytes, or the marker for disk serving. -/
inductive FileCacheEntryContent
  | Cached (bytes : List Nat)
  | File
deriving DecidableEq

/-- FileCacheEntry: a positive entry with content, MIME type, byte length and
modification time, or the negative NotFound entry. -/
inductive FileCacheEntry
  | Found (content : FileCacheEntryContent) (content_type : String)
      (content_length : Nat) (last_modified : Nat)
  | NotFound
deriving DecidableEq

/-- State of one file: metadata (len, mtime), the fault switches for open and
read, and the on-disk bytes. -/
structure FileInfo where
  len : Nat
  mtime : Nat
  openOk : Bool
  readOk : Bool
  content : List Nat
deriving DecidableEq

/-- The filesystem: path to file state; absence means the metadata query fails. -/
abbrev FileSystem := List (Path × FileInfo)

/-- The cache map (FileCache.files). -/
abbrev Cache := List (Path × FileCacheEntry)

/-- One recorded filesystem or cache touch, for stating that a code path
performs no I/O. -/
inductive Access
  | meta (p : Path)
  | fsOpen (p : Path)
  | fsRead (p : Path)
  | cacheGet (p : Path)
  | cacheSet (p : Path)
deriving DecidableEq

/-- Model of tokio::fs::File::open: fails when the file is absent or its
openOk fault switch is off. -/
def openFile (fs : FileSystem) (p : Path) : Option FileInfo :=
  match assoc fs p with
  | some fi => if fi.openOk then some fi else none
  | none => none

/-- FileCache::set: insert, replacing any previous entry for the key. -/
def insertEntry (cache : Cache) (p : Path) (e : FileCacheEntry) : Cache :=
  (p, e) :: cache

/-- Model of the mime_guess lookup on the logical path (external crate); only
the extensions exercised here are tabulated, with the code's
application/octet-stream default.  No claim depends on the table itself. -/
def mimeGuess (p : Path) : String :=
  if p.length ≥ 5 ∧ p.drop (p.length - 5) = strB ".html" then "text/html"
  else if p.length ≥ 4 ∧ p.drop (p.length - 4) = strB ".txt" then "text/plain"
  else "application/octet-stream"

/-- FileCache::read_file (src/file_cache.rs, lines 51-109).  meta is the
metadata snapshot taken by the caller; content_length and last_modified of the
stored entry come from it.  Note the translation of the source's early return
on a read error: NotFound is returned without touching the cache, while an
open error stores NotFound. -/
def read_file (fs : FileSystem) (cache : Cache) (meta : FileInfo)
    (content_path : Path) (content_type_path : Path) :
    FileCacheEntry × Cache × List Access :=
  match openFile fs content_path with
  | some file =>
    let mime := mimeGuess content_type_path
    if meta.len > FILE_SYSTEM_THRESHOLD then
      let entry := FileCacheEntry.Found FileCacheEntryContent.File mime meta.len meta.mtime
      (entry, insertEntry cache content_path entry,
        [Access.fsOpen content_path, Access.cacheSet content_path])
    else
      if file.readOk then
        let entry := FileCacheEntry.Found (FileCacheEntryContent.Cached file.content)
          mime meta.len meta.mtime
        (entry, insertEntry cache content_path entry,
          [Access.fsOpen content_path, Access.fsRead content_path,
            Access.cacheSet content_path])
      else
        (FileCacheEntry.NotFound, cache,
          [Access.fsOpen content_path, Access.fsRead content_path])
  | none =>
    (FileCacheEntry.NotFound, insertEntry cache content_path FileCacheEntry.NotFound,
      [Access.fsOpen content_path, Access.cacheSet content_path])

/-! ## Response building (src/app.rs) -/

/-- The response headers the core ever sets, one optional field per header.
lastModified and contentLength carry the structured value; contentRange the
formatted header string. -/
structure HeaderMap where
  contentType : Option String := none
  lastModified : Option Nat := none
  contentLength : Option Nat := none
  contentEncoding : Option String := none
  cacheControl : Option String := none
  contentRange : Option String := none
deriving DecidableEq

/-- A response body: absent, raw bytes (also used for streamed files, which
deliver the file's bytes), or literal text. -/
inductive Body
  | empty
  | bytes (b : List Nat)
  | text (s : String)
deriving DecidableEq

/-- An HTTP response as far as the core shapes it. -/
structure Response where
  status : Nat
  headers : HeaderMap
  body : Body
deriving DecidableEq

/-- ServeFileResponse (src/app.rs, lines 94-103). -/
inductive ServeFileResponse
  | Found (headers : HeaderMap) (content : FileCacheEntryContent)
  | NotModified (headers : HeaderMap)
  | NotFound
deriving DecidableEq

/-- The header/conditional part of serve_file (src/app.rs, lines 149-184):
from the resolved entry and the optional If-Modified-Since instant, build the
ServeFileResponse.  IfModifiedSince::is_modified is strict comparison, so
NotModified is taken when the entry's modification time is at or before the
header's instant. -/
def build_serve_response (entry : FileCacheEntry) (if_modified_since : Option Nat) :
    ServeFileResponse :=
  match entry with
  | .Found content content_type content_length last_modified =>
    let headers : HeaderMap :=
      { contentType := some content_type, lastModified := some last_modified }
    match if_modified_since with
    | some t =>
      if last_modified ≤ t then
        ServeFileResponse.NotModified { headers with contentLength := some 0 }
      else
        ServeFileResponse.Found { headers with contentLength := some content_length } content
    | none =>
      ServeFileResponse.Found { headers with contentLength := some content_length } content
  | .NotFound => ServeFileResponse.NotFound

/-- serve_file (src/app.rs, lines 105-184): metadata check, cache lookup with
staleness revalidation, then response building.  Returns the response, the
cache after the lookup, and the access trace. -/
def serve_file (fs : FileSystem) (cache : Cache) (path_to_try : PathToTry)
    (if_modified_since : Option Nat) :
    ServeFileResponse × Cache × List Access :=
  let content_type_path := path_to_try.path
  let content_path := path_to_try.content_path
  match assoc fs content_path with
  | none => (ServeFileResponse.NotFound, cache, [Access.meta content_path])
  | some meta =>
    let r :=
      match assoc cache content_path with
      | some entry =>
        match entry with
        | FileCacheEntry.Found _ _ _ last_modified =>
          if meta.mtime > last_modified then
            read_file fs cache meta content_path content_type_path
          else (entry, cache, [])
        | FileCacheEntry.NotFound => (entry, cache, [])
      | none => read_file fs cache meta content_path content_type_path
    (build_serve_response r.1 if_modified_since, r.2.1,
      [Access.meta content_path, Access.cacheGet content_path] ++ r.2.2)

/-- The two request methods the handler distinguishes. -/
inductive Method
  | GET
  | HEAD
deriving DecidableEq

/-- The candidate loop of root (src/app.rs, lines 219-271): try candidates in
order; a Found entry is served (with Content-Encoding and Cache-Control from
the candidate, body suppressed for HEAD, and a fresh open for disk-served
files), NotModified short-circuits to 304, NotFound advances. -/
def rootLoop (fs : FileSystem) (method : Method) (if_modified_since : Option Nat) :
    List PathToTry → Cache → List Access → Response × Cache × List Access
  | [], cache, log => (⟨404, {}, Body.empty⟩, cache, log)
  | path_to_try :: rest, cache, log =>
    let r := serve_file fs cache path_to_try if_modified_since
    match r.1 with
    | ServeFileResponse.Found headers content =>
      let headers :=
        match path_to_try.encoding with
        | some e => { headers with contentEncoding := some e.to_header_value }
        | none => headers
      let headers :=
        match path_to_try.cache_control with
        | some cc => { headers with cacheControl := some cc }
        | none => headers
      if method = Method.HEAD then (⟨200, headers, Body.empty⟩, r.2.1, log ++ r.2.2)
      else
        match content with
        | FileCacheEntryContent.Cached b =>
          (⟨200, headers, Body.bytes b⟩, r.2.1, log ++ r.2.2)
        | FileCacheEntryContent.File =>
          match openFile fs path_to_try.content_path with
          | some file =>
            (⟨200, headers, Body.bytes file.content⟩, r.2.1,
              log ++ r.2.2 ++ [Access.fsOpen path_to_try.content_path])
          | none =>
            (⟨404, {}, Body.empty⟩, r.2.1,
              log ++ r.2.2 ++ [Access.fsOpen path_to_try.content_path])
    | ServeFileResponse.NotModified headers =>
      (⟨304, headers, Body.empty⟩, r.2.1, log ++ r.2.2)
    | ServeFileResponse.NotFound =>
      rootLoop fs method if_modified_since rest r.2.1 (log ++ r.2.2)

/-- The handler root (src/app.rs, lines 186-272): trim leading slashes,
percent-decode (undecodable paths bail with 404), reject non-Normal
components with 400, then iterate the candidates.  Note that root consumes no
Range header: the handler has no range parameter in the source. -/
def root (base_dir fallback_path : Path) (fs : FileSystem) (cache : Cache)
    (method : Method) (uriPath : List Nat)
    (client_encoding_support : ClientEncodingSupport)
    (if_modified_since : Option Nat) : Response × Cache × List Access :=
  let path := uriPath.dropWhile (fun b => b == 47)
  let decoded := percent_decode path
  if utf8Valid decoded then
    if is_valid_path decoded then
      rootLoop fs method if_modified_since
        (collect_paths_to_try client_encoding_support base_dir fallback_path uriPath decoded)
        cache []
    else (⟨400, {}, Body.empty⟩, cache, [])
  else (⟨404, {}, Body.empty⟩, cache, [])

/-! ## Partial content (src/partial.rs) -/

/-- One end of a byte range as handed over by Range::satisfiable_ranges of
the external headers crate. -/
inductive RangeBound
  | incl (n : Nat)
  | excl (n : Nat)
  | unbounded
deriving DecidableEq

/-- The 416 response built by err() in process_range; the transport-level
headers axum adds for a plain string body are not modelled. -/
def range_not_satisfiable_response : Response :=
  ⟨416, {}, Body.text "Requested Range Not Satisfiable"⟩

/-- Resolution of the start bound (missing start means 0). -/
def resolve_start : RangeBound → Nat
  | .incl s => s
  | .excl s => s + 1
  | .unbounded => 0

/-- Resolution of the end bound (missing end means length - 1; the source
uses saturating_sub, which is Nat subtraction). -/
def resolve_end (content_length : Nat) : RangeBound → Nat
  | .incl e => e
  | .excl e => e - 1
  | .unbounded => content_length - 1

/-- process_range (src/partial.rs, lines 38-78).  The argument range is the
first element of Range::satisfiable_ranges, an external-crate iterator; none
models an exhausted iterator.  The checks are the source's in order: start
past the length, end before start, end at or past the length. -/
def process_range (content_length : Nat)
    (range : Option (RangeBound × RangeBound)) : Except Response (Nat × Nat) :=
  match range with
  | some (sb, eb) =>
    let s := resolve_start sb
    let e := resolve_end content_length eb
    if s > content_length then Except.error range_not_satisfiable_response
    else if e < s then Except.error range_not_satisfiable_response
    else if e ≥ content_length then Except.error range_not_satisfiable_response
    else Except.ok (s, e)
  | none => Except.error range_not_satisfiable_response

/-- content_range_range: the formatted Content-Range header value. -/
def content_range_range (s e content_length : Nat) : String :=
  "bytes " ++ toString s ++ "-" ++ toString e ++ "/" ++ toString content_length

/-- apply_content_range_headers: content type application/octet-stream, the
Content-Range header, and Content-Length overwritten with the slice length. -/
def apply_content_range_headers (headers : HeaderMap) (s e content_length : Nat) :
    HeaderMap :=
  { headers with
      contentType := some "application/octet-stream"
      contentRange := some (content_range_range s e content_length)
      contentLength := some (e - s + 1) }

/-- serve_partial_cached_response (src/partial.rs, lines 99-120).  The
inclusive slice content[s..=e] is modelled with an explicit bounds guard: the
none result stands for the panic Rust raises on an out-of-bounds slice, so a
some result means the function cannot panic there. -/
def serve_partial_cached_response (headers : HeaderMap) (content : List Nat)
    (content_length : Nat) (range : Option (RangeBound × RangeBound)) :
    Option Response :=
  match process_range content_length range with
  | Except.ok (s, e) =>
    let headers := apply_content_range_headers headers s e content_length
    if s ≤ e + 1 ∧ e < content.length then
      some ⟨206, headers, Body.bytes ((content.drop s).take (e + 1 - s))⟩
    else none
  | Except.error r => some r


/-! ## Helper lemmas -/

/-- A push-style left fold is an append of the mapped list. -/
theorem foldl_push {α β : Type} (f : α → β) (l : List α) :
    ∀ acc : List β, l.foldl (fun a e => a ++ [f e]) acc = acc ++ l.map f := by
  induction l with
  | nil => intro acc; simp
  | cons x xs ih => intro acc; simp [List.foldl_cons, ih]

/-! ## Claims -/

/-- Claim C9: the candidate list is, in order, the encoded variants of the
exact path, the plain exact path, the encoded fallback variants with
cache-control no-cache, and the plain fallback; for the root request path
only the fallback candidates are produced. -/
theorem c9_collect_paths_shape (sup : ClientEncodingSupport)
    (base_dir fallback_path : Path) (uriPath : List Nat) (initial_path : Path) :
    collect_paths_to_try sup base_dir fallback_path uriPath initial_path =
      (if uriPath = [47] then []
        else ((supported_encodings sup).map
            fun e => (⟨pathJoin base_dir initial_path, some e, none⟩ : PathToTry))
          ++ [⟨pathJoin base_dir initial_path, none, none⟩])
      ++ ((supported_encodings sup).map
          fun e => (⟨fallback_path, some e, some "no-cache"⟩ : PathToTry))
      ++ [⟨fallback_path, none, none⟩] := by
  by_cases h : uriPath = [47] <;>
    simp [collect_paths_to_try, h, foldl_push]

/-- Claim C10: whenever process_range succeeds, the resolved range satisfies
start ≤ end < content length, so the inclusive slice taken by
serve_partial_cached_response is in bounds and the function cannot panic,
provided the passed content_length is the content's length. -/
theorem c10_process_range_bounds_safe (content : List Nat) (headers : HeaderMap)
    (range : Option (RangeBound × RangeBound)) :
    (∀ s e, process_range content.length range = Except.ok (s, e) →
      s ≤ e ∧ e < content.length)
    ∧ (serve_partial_cached_response headers content content.length range).isSome = true := by
  have key : ∀ s e, process_range content.length range = Except.ok (s, e) →
      s ≤ e ∧ e < content.length := by
    intro s e h
    match range with
    | none => simp [process_range] at h
    | some (sb, eb) =>
      simp only [process_range] at h
      by_cases h1 : resolve_start sb > content.length
      · simp [h1] at h
      · by_cases h2 : resolve_end content.length eb < resolve_start sb
        · simp [h1, h2] at h
        · by_cases h3 : resolve_end content.length eb ≥ content.length
          · simp [h1, h2, h3] at h
          · simp [h1, h2, h3] at h
            obtain ⟨hs, he⟩ := h
            omega
  refine ⟨key, ?_⟩
  cases hpr : process_range content.length range with
  | error r => simp [serve_partial_cached_response, hpr]
  | ok p =>
    obtain ⟨s, e⟩ := p
    obtain ⟨hse, hlen⟩ := key s e hpr
    have h1 : s ≤ e + 1 := by omega
    simp [serve_partial_cached_response, hpr, h1, hlen]

/-- Claim C10 witness: at a three-byte content and the range 0..=1, the
resolved bounds are in range and serving the slice succeeds. -/
theorem c10_process_range_bounds_safe_witness :
    ((0 : Nat) ≤ 1 ∧ (1 : Nat) < 3)
    ∧ (serve_partial_cached_response {} [1, 2, 3] 3
        (some (RangeBound.incl 0, RangeBound.incl 1))).isSome = true :=
  ⟨(c10_process_range_bounds_safe [1, 2, 3] {}
      (some (RangeBound.incl 0, RangeBound.incl 1))).1 0 1 rfl,
    (c10_process_range_bounds_safe [1, 2, 3] {}
      (some (RangeBound.incl 0, RangeBound.incl 1))).2⟩

/-- Claim C3 counterexample: the 416 response the range processor builds for
an unsatisfiable range is not bodyless, contrary to the claim: it carries the
text "Requested Range Not Satisfiable". -/
theorem c3_unsatisfiable_range_response_has_body :
    serve_partial_cached_response {} (List.replicate 500 7) 500
        (some (RangeBound.incl 1000, RangeBound.incl 2000)) =
      some range_not_satisfiable_response
    ∧ range_not_satisfiable_response.status = 416
    ∧ range_not_satisfiable_response.body ≠ Body.empty := by
  refine ⟨rfl, rfl, by simp [range_not_satisfiable_response]⟩

/-- Claim C3 (amended): a single byte range that resolves to an unsatisfiable
pair (start past the total length, end before start, or end at or past the
total length) yields the 416 response with its short text body. -/
theorem c3_unsatisfiable_range_416_with_text (headers : HeaderMap) (content : List Nat)
    (content_length : Nat) (sb eb : RangeBound) :
    (resolve_start sb > content_length
      ∨ resolve_end content_length eb < resolve_start sb
      ∨ resolve_end content_length eb ≥ content_length) →
    serve_partial_cached_response headers content content_length (some (sb, eb)) =
      some range_not_satisfiable_response := by
  intro hun
  have hpr : process_range content_length (some (sb, eb)) =
      Except.error range_not_satisfiable_response := by
    simp only [process_range]
    split_ifs with h1 h2 h3
    · rfl
    · rfl
    · rfl
    · exfalso; rcases hun with h | h | h <;> omega
  simp [serve_partial_cached_response, hpr]

/-- Claim C3 witness: a range starting at 600 of a 500-byte resource is
rejected with the 416 text response. -/
theorem c3_unsatisfiable_range_416_with_text_witness :
    serve_partial_cached_response {} [] 500
        (some (RangeBound.incl 600, RangeBound.unbounded)) =
      some range_not_satisfiable_response :=
  c3_unsatisfiable_range_416_with_text {} [] 500 (RangeBound.incl 600) RangeBound.unbounded
    (Or.inl (by decide))

set_option maxRecDepth 100000 in
/-- Claim C1 (code bug): the handler root consumes no Range header, so a GET
for an existing 500-byte resource under Range bytes=0-99 is answered 200 with
the full body and no Content-Range, not 206; the partial-content function
serve_partial_cached_response, which the handler never calls, does produce
exactly the claimed 206 response for these inputs. -/
theorem c1_handler_ignores_range_bytes_0_99 :
    (root (strB "www") (strB "www/index.html")
        [(strB "www/a.bin", ⟨500, 100, true, true, List.replicate 500 7⟩)]
        [] Method.GET (strB "/a.bin") ⟨false, false, false⟩ none).1 =
      ⟨200, { contentType := some "application/octet-stream", lastModified := some 100,
              contentLength := some 500 }, Body.bytes (List.replicate 500 7)⟩
    ∧ (200 : Nat) ≠ 206
    ∧ serve_partial_cached_response
        { contentType := some "application/octet-stream", lastModified := some 100,
          contentLength := some 500 }
        (List.replicate 500 7) 500 (some (RangeBound.incl 0, RangeBound.incl 99)) =
      some ⟨206, { contentType := some "application/octet-stream", lastModified := some 100,
                   contentLength := some 100, contentRange := some "bytes 0-99/500" },
            Body.bytes (List.replicate 100 7)⟩ := by
  refine ⟨rfl, by decide, rfl⟩


/-- Claim C2 counterexample: with a readable file on disk and a cached
NotFound entry for its path, serve_file returns the cached NotFound without
opening or reading the file and leaves the cache unchanged, while a fresh
read of the same state would produce a Found entry — the negative entry is
not reloaded. -/
theorem c2_notfound_entry_not_reloaded :
    serve_file [(strB "www/x.txt", ⟨3, 50, true, true, [1, 2, 3]⟩)]
        [(strB "www/x.txt", FileCacheEntry.NotFound)]
        ⟨strB "www/x.txt", none, none⟩ none =
      (ServeFileResponse.NotFound, [(strB "www/x.txt", FileCacheEntry.NotFound)],
        [Access.meta (strB "www/x.txt"), Access.cacheGet (strB "www/x.txt")])
    ∧ (read_file [(strB "www/x.txt", ⟨3, 50, true, true, [1, 2, 3]⟩)]
          [(strB "www/x.txt", FileCacheEntry.NotFound)]
          ⟨3, 50, true, true, [1, 2, 3]⟩ (strB "www/x.txt") (strB "www/x.txt")).1 =
        FileCacheEntry.Found (FileCacheEntryContent.Cached [1, 2, 3]) "text/plain" 3 50 :=
  ⟨rfl, rfl⟩

/-- Claim C2 (amended): when the metadata query succeeds but the cached entry
for the physical path is NotFound, serve_file returns that cached NotFound
unchanged, performing no open or read and leaving the cache as it was; the
file is not reloaded. -/
theorem c2_notfound_entry_returned_cached (fs : FileSystem) (cache : Cache)
    (ptt : PathToTry) (ims : Option Nat) (fi : FileInfo)
    (h1 : assoc fs ptt.content_path = some fi)
    (h2 : assoc cache ptt.content_path = some FileCacheEntry.NotFound) :
    serve_file fs cache ptt ims =
      (ServeFileResponse.NotFound, cache,
        [Access.meta ptt.content_path, Access.cacheGet ptt.content_path]) := by
  simp [serve_file, h1, h2, build_serve_response]

/-- Claim C2 witness: a concrete instance of the amended statement. -/
theorem c2_notfound_entry_returned_cached_witness :
    serve_file [([0], ⟨1, 1, true, true, [5]⟩)] [([0], FileCacheEntry.NotFound)]
        ⟨[0], none, none⟩ none =
      (ServeFileResponse.NotFound, [([0], FileCacheEntry.NotFound)],
        [Access.meta [0], Access.cacheGet [0]]) :=
  c2_notfound_entry_returned_cached _ _ _ _ ⟨1, 1, true, true, [5]⟩ rfl rfl

/-- Claim C5 counterexample: when the open succeeds but the read fails, the
code's early return yields NotFound without storing any entry: the cache
stays empty, contrary to the claim that a NotFound entry is stored under the
physical path. -/
theorem c5_read_error_not_stored :
    read_file [([1], ⟨3, 9, true, false, [1, 2, 3]⟩)] [] ⟨3, 9, true, false, [1, 2, 3]⟩
        [1] [1] =
      (FileCacheEntry.NotFound, [], [Access.fsOpen [1], Access.fsRead [1]]) := rfl

/-- Claim C5 (amended): an open failure stores NotFound under the physical
path and returns it; a read failure (for a file at or below the threshold)
returns NotFound without storing anything; and in either case the candidate
loop treats a NotFound outcome by advancing to the next candidate. -/
theorem c5_read_error_outcomes (fs : FileSystem) (cache : Cache) (meta : FileInfo)
    (cp ctp : Path) :
    (openFile fs cp = none →
      read_file fs cache meta cp ctp =
        (FileCacheEntry.NotFound, insertEntry cache cp FileCacheEntry.NotFound,
          [Access.fsOpen cp, Access.cacheSet cp]))
    ∧ (∀ fi, openFile fs cp = some fi → meta.len ≤ FILE_SYSTEM_THRESHOLD →
        fi.readOk = false →
        read_file fs cache meta cp ctp =
          (FileCacheEntry.NotFound, cache, [Access.fsOpen cp, Access.fsRead cp]))
    ∧ (∀ (method : Method) (ims : Option Nat) (ptt : PathToTry) (rest : List PathToTry)
          (log : List Access),
        (serve_file fs cache ptt ims).1 = ServeFileResponse.NotFound →
        rootLoop fs method ims (ptt :: rest) cache log =
          rootLoop fs method ims rest (serve_file fs cache ptt ims).2.1
            (log ++ (serve_file fs cache ptt ims).2.2)) := by
  refine ⟨?_, ?_, ?_⟩
  · intro h
    simp [read_file, h]
  · intro fi hopen hlen hread
    have hgt : ¬ meta.len > FILE_SYSTEM_THRESHOLD := by omega
    simp [read_file, hopen, hgt, hread]
  · intro method ims ptt rest log h
    simp only [rootLoop]
    rw [h]

/-- Claim C5 witness: a concrete read failure returning NotFound while the
cache keeps its previous contents, nothing stored for the failing path. -/
theorem c5_read_error_outcomes_witness :
    read_file [([1], ⟨3, 9, true, false, [1, 2]⟩)] [([9], FileCacheEntry.NotFound)]
        ⟨3, 9, true, false, [1, 2]⟩ [1] [2] =
      (FileCacheEntry.NotFound, [([9], FileCacheEntry.NotFound)],
        [Access.fsOpen [1], Access.fsRead [1]]) :=
  (c5_read_error_outcomes _ _ _ _ _).2.1 ⟨3, 9, true, false, [1, 2]⟩ rfl (by decide) rfl

/-- Claim C6 counterexample: a stale Found entry (disk modification time 10,
cached 5) whose reload fails while reading is answered NotFound and the old
entry is left in the cache — the fresh outcome does not replace it, contrary
to the claim. -/
theorem c6_stale_entry_not_replaced_on_read_error :
    serve_file [([3], ⟨2, 10, true, false, [8, 8]⟩)]
        [([3], FileCacheEntry.Found (FileCacheEntryContent.Cached [9, 9]) "text/plain" 2 5)]
        ⟨[3], none, none⟩ none =
      (ServeFileResponse.NotFound,
        [([3], FileCacheEntry.Found (FileCacheEntryContent.Cached [9, 9]) "text/plain" 2 5)],
        [Access.meta [3], Access.cacheGet [3], Access.fsOpen [3], Access.fsRead [3]])
    ∧ (10 : Nat) > 5 :=
  ⟨rfl, by decide⟩

/-- Claim C6 (amended): for a Found cached entry, a filesystem modification
time at or before the cached one returns the cached entry unchanged with the
cache untouched; a strictly newer filesystem modification time makes
serve_file reload through read_file, the response being built from the fresh
outcome and the cache becoming read_file's cache (which replaces the entry
except when the reload fails while reading). -/
theorem c6_staleness_revalidation (fs : FileSystem) (cache : Cache) (ptt : PathToTry)
    (ims : Option Nat) (fi : FileInfo) (c : FileCacheEntryContent) (ct : String)
    (cl lm : Nat)
    (h1 : assoc fs ptt.content_path = some fi)
    (h2 : assoc cache ptt.content_path = some (FileCacheEntry.Found c ct cl lm)) :
    (fi.mtime ≤ lm →
      serve_file fs cache ptt ims =
        (build_serve_response (FileCacheEntry.Found c ct cl lm) ims, cache,
          [Access.meta ptt.content_path, Access.cacheGet ptt.content_path]))
    ∧ (fi.mtime > lm →
      serve_file fs cache ptt ims =
        (build_serve_response (read_file fs cache fi ptt.content_path ptt.path).1 ims,
          (read_file fs cache fi ptt.content_path ptt.path).2.1,
          [Access.meta ptt.content_path, Access.cacheGet ptt.content_path]
            ++ (read_file fs cache fi ptt.content_path ptt.path).2.2)) := by
  constructor
  · intro hle
    have hgt : ¬ fi.mtime > lm := by omega
    simp [serve_file, h1, h2, hgt]
  · intro hgt
    simp [serve_file, h1, h2, hgt]

/-- Claim C6 witness: a fresh cache hit (cached modification time 9, disk 5)
returns the cached entry unchanged. -/
theorem c6_staleness_revalidation_witness :
    serve_file [([4], ⟨1, 5, true, true, [1]⟩)]
        [([4], FileCacheEntry.Found (FileCacheEntryContent.Cached [1]) "text/plain" 1 9)]
        ⟨[4], none, none⟩ none =
      (build_serve_response
          (FileCacheEntry.Found (FileCacheEntryContent.Cached [1]) "text/plain" 1 9) none,
        [([4], FileCacheEntry.Found (FileCacheEntryContent.Cached [1]) "text/plain" 1 9)],
        [Access.meta [4], Access.cacheGet [4]]) :=
  (c6_staleness_revalidation [([4], ⟨1, 5, true, true, [1]⟩)]
      [([4], FileCacheEntry.Found (FileCacheEntryContent.Cached [1]) "text/plain" 1 9)]
      ⟨[4], none, none⟩ none ⟨1, 5, true, true, [1]⟩ (FileCacheEntryContent.Cached [1])
      "text/plain" 1 9 rfl rfl).1 (by decide)

/-- Claim C7: a Found entry whose modification time is at or before the
If-Modified-Since instant yields NotModified with Content-Length 0 and
Last-Modified still set; a strictly later modification time yields the
normal Found response with the entry's length; and the candidate loop turns
a NotModified outcome into a 304 response with those headers and an empty
body. -/
theorem c7_not_modified_response :
    (∀ (c : FileCacheEntryContent) (ct : String) (cl lm t : Nat),
      (lm ≤ t →
        build_serve_response (FileCacheEntry.Found c ct cl lm) (some t) =
          ServeFileResponse.NotModified
            { contentType := some ct, lastModified := some lm, contentLength := some 0 })
      ∧ (t < lm →
        build_serve_response (FileCacheEntry.Found c ct cl lm) (some t) =
          ServeFileResponse.Found
            { contentType := some ct, lastModified := some lm, contentLength := some cl }
            c))
    ∧ (∀ (fs : FileSystem) (method : Method) (ims : Option Nat) (ptt : PathToTry)
          (rest : List PathToTry) (cache : Cache) (log : List Access) (hm : HeaderMap),
        (serve_file fs cache ptt ims).1 = ServeFileResponse.NotModified hm →
        rootLoop fs method ims (ptt :: rest) cache log =
          (⟨304, hm, Body.empty⟩, (serve_file fs cache ptt ims).2.1,
            log ++ (serve_file fs cache ptt ims).2.2)) := by
  constructor
  · intro c ct cl lm t
    constructor
    · intro hle
      simp [build_serve_response, hle]
    · intro hlt
      have h : ¬ lm ≤ t := by omega
      simp [build_serve_response, h]
  · intro fs method ims ptt rest cache log hm h
    simp only [rootLoop]
    rw [h]

/-- Claim C7 witness: a concrete entry modified at 5 against an
If-Modified-Since instant of 7 is answered NotModified with a zero content
length and the Last-Modified header kept. -/
theorem c7_not_modified_response_witness :
    build_serve_response
        (FileCacheEntry.Found FileCacheEntryContent.File "text/html" 12 5) (some 7) =
      ServeFileResponse.NotModified
        { contentType := some "text/html", lastModified := some 5, contentLength := some 0 } :=
  (c7_not_modified_response.1 FileCacheEntryContent.File "text/html" 12 5 7).1 (by decide)

/-- Claim C4 counterexample: the request path consisting of the percent
sequence for byte 255 fails UTF-8 decoding and is answered 404, not the 400
the claim states. -/
theorem c4_undecodable_path_not_400 :
    (root [9] [9] [] [] Method.GET (strB "/%ff") ⟨false, false, false⟩ none).1.status = 404
    ∧ (404 : Nat) ≠ 400 :=
  ⟨rfl, by decide⟩

/-- Claim C4 (amended): a path that fails percent-decoding to UTF-8 is
rejected with 404, and a decodable path with a non-plain component is
rejected with 400; in both cases the handler returns before any cache or
filesystem access: the cache is returned unchanged and the access trace is
empty. -/
theorem c4_invalid_path_rejected_before_io (base_dir fallback_path : Path)
    (fs : FileSystem) (cache : Cache) (method : Method) (uriPath : List Nat)
    (sup : ClientEncodingSupport) (ims : Option Nat)
    (h : utf8Valid (percent_decode (uriPath.dropWhile (fun b => b == 47))) = false
      ∨ is_valid_path (percent_decode (uriPath.dropWhile (fun b => b == 47))) = false) :
    root base_dir fallback_path fs cache method uriPath sup ims =
      ((if utf8Valid (percent_decode (uriPath.dropWhile (fun b => b == 47)))
          then (⟨400, {}, Body.empty⟩ : Response)
          else ⟨404, {}, Body.empty⟩), cache, []) := by
  rcases h with h | h
  · simp [root, h]
  · by_cases hu : utf8Valid (percent_decode (uriPath.dropWhile (fun b => b == 47)))
    · simp [root, h, hu]
    · simp [root, hu]

/-- Claim C4 witness: the decoded traversal path consisting of two encoded
dots is rejected with 400, cache untouched, empty access trace. -/
theorem c4_invalid_path_rejected_before_io_witness :
    root [9] [9] [] [] Method.GET (strB "/%2e%2e") ⟨false, false, false⟩ none =
      ((⟨400, {}, Body.empty⟩ : Response), [], []) := by
  have h := c4_invalid_path_rejected_before_io [9] [9] [] [] Method.GET (strB "/%2e%2e")
    ⟨false, false, false⟩ none (Or.inr (by decide))
  rw [h]
  rw [if_pos (by decide)]


/-! ## Lemmas for the encoding negotiation claim -/

/-- Whitespace characters are not the semicolon. -/
theorem ws_not_semi (c : Char) (h : isWsChar c = true) : notSemi c = true := by
  simp only [isWsChar, Bool.or_eq_true, beq_iff_eq] at h
  rcases h with ((rfl | rfl) | rfl) | rfl <;> decide

/-- Dropping leading whitespace twice is dropping it once. -/
theorem dropWhile_ws_idem (l : List Char) :
    (l.dropWhile isWsChar).dropWhile isWsChar = l.dropWhile isWsChar := by
  induction l with
  | nil => rfl
  | cons c t ih =>
    by_cases h : isWsChar c
    · simp [List.dropWhile_cons, h, ih]
    · simp [List.dropWhile_cons, h]

/-- Taking up to the first semicolon commutes with dropping leading
whitespace. -/
theorem takeWhile_dropWhile_comm (l : List Char) :
    (l.dropWhile isWsChar).takeWhile notSemi = (l.takeWhile notSemi).dropWhile isWsChar := by
  induction l with
  | nil => rfl
  | cons c t ih =>
    by_cases h : isWsChar c
    · have hp : notSemi c = true := ws_not_semi c h
      simp [List.dropWhile_cons, List.takeWhile_cons, h, hp, ih]
    · by_cases hp : notSemi c
      · simp [List.dropWhile_cons, List.takeWhile_cons, h, hp]
      · simp [List.dropWhile_cons, List.takeWhile_cons, h, hp]

/-- A list trimmed to nothing was all whitespace. -/
theorem trimTrailing_eq_nil : ∀ l : List Char, trimTrailing l = [] →
    ∀ c ∈ l, isWsChar c = true := by
  intro l
  induction l with
  | nil => intro _ c hc; simp at hc
  | cons c t ih =>
    intro h x hx
    simp only [trimTrailing] at h
    rcases ht : trimTrailing t with _ | ⟨r0, rt⟩
    · rw [ht] at h
      simp only at h
      by_cases hc : isWsChar c
      · rcases List.mem_cons.mp hx with rfl | hxt
        · exact hc
        · exact ih ht x hxt
      · rw [if_neg hc] at h
        simp at h
    · rw [ht] at h
      simp at h

/-- A list of whitespace has no semicolon. -/
theorem hasSemi_false_of_all_ws (l : List Char) (hall : ∀ c ∈ l, isWsChar c = true) :
    hasSemi l = false := by
  rw [hasSemi, List.any_eq_false]
  intro x hx
  have h := ws_not_semi x (hall x hx)
  rw [notSemi, Bool.not_eq_true'] at h
  simp [h]

/-- Trailing trimming does not change whether a semicolon occurs. -/
theorem hasSemi_trimTrailing : ∀ l : List Char, hasSemi (trimTrailing l) = hasSemi l := by
  intro l
  induction l with
  | nil => rfl
  | cons c t ih =>
    simp only [trimTrailing]
    rcases ht : trimTrailing t with _ | ⟨r0, rt⟩
    · simp only
      have hall := trimTrailing_eq_nil t ht
      have hnt : hasSemi t = false := hasSemi_false_of_all_ws t hall
      by_cases hc : isWsChar c
      · rw [if_pos hc]
        have h := ws_not_semi c hc
        rw [notSemi, Bool.not_eq_true'] at h
        rw [hasSemi] at hnt
        rw [hasSemi, hasSemi, List.any_nil, List.any_cons, h, hnt, Bool.false_or]
      · rw [if_neg hc]
        rw [hasSemi] at hnt
        rw [hasSemi, hasSemi, List.any_cons, List.any_cons, List.any_nil, hnt,
          Bool.or_false]
    · rw [ht] at ih
      simp [hasSemi, List.any_cons] at ih ⊢
      rw [ih]

/-- Dropping leading whitespace does not change whether a semicolon occurs. -/
theorem hasSemi_dropWhile_ws : ∀ l : List Char, hasSemi (l.dropWhile isWsChar) = hasSemi l := by
  intro l
  induction l with
  | nil => rfl
  | cons c t ih =>
    by_cases hc : isWsChar c
    · rw [List.dropWhile_cons, if_pos hc, ih]
      have h := ws_not_semi c hc
      rw [notSemi, Bool.not_eq_true'] at h
      simp [hasSemi, List.any_cons, h]
    · rw [List.dropWhile_cons, if_neg hc]

/-- When a semicolon occurs, trailing trimming does not change the segment
before the first semicolon. -/
theorem takeWhile_trimTrailing : ∀ l : List Char, hasSemi l = true →
    (trimTrailing l).takeWhile notSemi = l.takeWhile notSemi := by
  intro l
  induction l with
  | nil => intro h; simp [hasSemi] at h
  | cons c t ih =>
    intro h
    simp only [trimTrailing]
    rcases ht : trimTrailing t with _ | ⟨r0, rt⟩
    · have hall := trimTrailing_eq_nil t ht
      have hnt : hasSemi t = false := hasSemi_false_of_all_ws t hall
      have hcs : (c == ';') = true := by
        rw [hasSemi, List.any_cons] at h
        rcases Bool.or_eq_true_iff.mp h with h' | h'
        · exact h'
        · rw [hasSemi] at hnt; rw [hnt] at h'; cases h'
      have hceq : c = ';' := beq_iff_eq.mp hcs
      have hcw : isWsChar c = false := by subst hceq; decide
      have hns : notSemi c = false := by subst hceq; decide
      rw [if_neg (by simp [hcw])]
      simp [List.takeWhile_cons, hns]
    · rw [ht] at ih
      have hns : hasSemi t = true ∨ (c == ';') = true := by
        rw [hasSemi, List.any_cons] at h
        rcases Bool.or_eq_true_iff.mp h with h' | h'
        · exact Or.inr h'
        · exact Or.inl h'
      by_cases hcsemi : notSemi c
      · have hts : hasSemi t = true := by
          rcases hns with h' | h'
          · exact h'
          · rw [notSemi, h'] at hcsemi; cases hcsemi
        simp [List.takeWhile_cons, hcsemi, ih hts]
      · have hns2 : notSemi c = false := by
          rcases Bool.eq_false_or_eq_true (notSemi c) with h' | h'
          · exact absurd h' hcsemi
          · exact h'
        simp [List.takeWhile_cons, hns2]

/-- When no semicolon occurs, taking up to the first semicolon is the
identity. -/
theorem takeWhile_eq_self_of_no_semi : ∀ l : List Char, hasSemi l = false →
    l.takeWhile notSemi = l := by
  intro l
  induction l with
  | nil => intro _; rfl
  | cons c t ih =>
    intro h
    rw [hasSemi, List.any_cons, Bool.or_eq_false_iff] at h
    have hns : notSemi c = true := by rw [notSemi, h.1]; rfl
    rw [List.takeWhile_cons, if_pos (by simp [hns])]
    rw [ih]
    rw [hasSemi]
    exact h.2

/-- The token check_support extracts from a trimmed entry is the trimmed
segment before the entry's first semicolon. -/
theorem code_token_eq_spec_token (e : List Char) :
    (match splitOnceSemi (trimSpaces e) with
      | some pr => trimSpaces pr.1
      | none => trimSpaces e) = trimSpaces (e.takeWhile notSemi) := by
  have htr : hasSemi (trimSpaces e) = hasSemi e := by
    rw [trimSpaces, hasSemi_trimTrailing, hasSemi_dropWhile_ws]
  by_cases h : hasSemi (trimSpaces e) = true
  · simp only [splitOnceSemi, h, if_true]
    have hsemidw : hasSemi (List.dropWhile isWsChar e) = true := by
      rw [hasSemi_dropWhile_ws, ← htr]
      exact h
    have step1 : (trimSpaces e).takeWhile notSemi =
        (List.dropWhile isWsChar e).takeWhile notSemi := by
      rw [trimSpaces]
      exact takeWhile_trimTrailing _ hsemidw
    rw [step1, takeWhile_dropWhile_comm]
    rw [trimSpaces, trimSpaces, dropWhile_ws_idem]
  · rw [Bool.not_eq_true] at h
    simp only [splitOnceSemi, h, Bool.false_eq_true, if_false]
    have hse : hasSemi e = false := by rw [← htr]; exact h
    rw [takeWhile_eq_self_of_no_semi e hse]

/-- check_support over the trimmed comma-separated entries agrees with the
specification-style token membership over the raw entries. -/
theorem check_support_eq_spec (s tok : List Char) :
    check_support ((splitOnElem ',' s).map trimSpaces) tok =
      ((splitOnElem ',' s).any fun entry =>
        eqIgnoreAsciiCase (trimSpaces (entry.takeWhile notSemi)) tok) := by
  rw [check_support, List.any_map]
  apply congrArg
  funext entry
  simp only [Function.comp]
  rw [code_token_eq_spec_token]

/-- The eight-way match of supported_encodings is the ordered filter of the
fixed priority list by the three flags. -/
theorem supported_eq_filter : ∀ b g z : Bool,
    supported_encodings ⟨b, g, z⟩ =
      [Encoding.Brotli, Encoding.Zstandard, Encoding.Gzip].filter
        (fun enc => match enc with
          | Encoding.Brotli => b
          | Encoding.Zstandard => z
          | Encoding.Gzip => g) := by decide

/-- Claim C8: for every Accept-Encoding header value the negotiated list is
exactly the subset of Brotli, Zstandard, Gzip whose tokens appear among the
comma-separated entries — matched case-insensitively with any
semicolon-suffixed quality parameter ignored — always in the fixed order
Brotli, Zstandard, Gzip; an absent header yields the empty list. -/
theorem c8_encoding_negotiation :
    (∀ accept_encoding : Option (List Char),
      supported_encodings (from_header_map accept_encoding) =
        [Encoding.Brotli, Encoding.Zstandard, Encoding.Gzip].filter
          (fun enc => spec_accepts accept_encoding enc.to_header_value.toList))
    ∧ supported_encodings (from_header_map none) = [] := by
  constructor
  · intro ae
    cases ae with
    | none => rfl
    | some s =>
      have h := supported_eq_filter
        (check_support ((splitOnElem ',' s).map trimSpaces) "br".toList)
        (check_support ((splitOnElem ',' s).map trimSpaces) "gzip".toList)
        (check_support ((splitOnElem ',' s).map trimSpaces) "zstd".toList)
      refine Eq.trans h ?_
      apply List.filter_congr
      intro enc _
      cases enc <;>
        simp only [spec_accepts, Encoding.to_header_value] <;>
        exact check_support_eq_spec s _
  · rfl

end Srvr
